import Mathlib

/-!
Verification development for the scribbl-scan repository (a block-explorer
front-end).  The definitions below are shallow embeddings of the functions in
`src/src/components/TasksList.tsx` and the unnamed source file containing
`App` and `EventsList`.  Block numbers are modelled as `Nat` (the source uses
`bigint`; the `Number`/`BigInt` round-trip in the source's `Math.min` call is
modelled as the exact mathematical `min`, which agrees with the source for all
block heights below 2^53).  Network calls are modelled as explicit function
parameters; fallible calls return `Except`.
-/

namespace ScribblScan

/-- The `BLOCK_RANGE` constant (maximum allowed block span) from both
`TasksList.tsx` and `EventsList`. -/
def BLOCK_RANGE : Nat := 50000

/-- The fixed genesis block used by `fetchAllTasks` in `TasksList.tsx`. -/
def GENESIS_TASKS : Nat := 3358671

/-- The fixed genesis block used by `fetchAllEvents` in `EventsList`. -/
def GENESIS_EVENTS : Nat := 3358559

/-- The sequence of inclusive sub-ranges `[from, to]` visited by the
pagination loop of `fetchAllTasks` / `fetchAllEvents`:
starting at `start`, each iteration computes `to = min (from + maxSpan) tip`,
records `[from, to]`, stops if `to = tip`, and otherwise continues from
`to + 1`.  An empty list results when `start > tip` (the `while` guard fails
immediately). -/
def subRanges (start tip maxSpan : Nat) : List (Nat × Nat) :=
  if _h : start ≤ tip then
    if min (start + maxSpan) tip = tip then
      [(start, min (start + maxSpan) tip)]
    else
      (start, min (start + maxSpan) tip) :: subRanges (min (start + maxSpan) tip + 1) tip maxSpan
  else []
  termination_by tip + 1 - start
  decreasing_by omega

/-- The pagination loop of `fetchAllTasks` / `fetchAllEvents` with an
infallible fetch function: results of `fetch from to` for each sub-range are
appended in loop order. -/
def paginate {α : Type} (fetch : Nat → Nat → List α) (start tip maxSpan : Nat) : List α :=
  if _h : start ≤ tip then
    if min (start + maxSpan) tip = tip then
      fetch start (min (start + maxSpan) tip)
    else
      fetch start (min (start + maxSpan) tip) ++
        paginate fetch (min (start + maxSpan) tip + 1) tip maxSpan
  else []
  termination_by tip + 1 - start
  decreasing_by omega

/-- The pagination loop of `fetchAllTasks` / `fetchAllEvents` with a fallible
fetch function (the source's `await fetchTasksInRange` may reject; the
rejection propagates out of the loop).  Modelled in `Except`: the first
failing sub-range aborts the whole loop with that error. -/
def paginateE {ε α : Type} (fetch : Nat → Nat → Except ε (List α)) (start tip maxSpan : Nat) :
    Except ε (List α) :=
  if _h : start ≤ tip then
    match fetch start (min (start + maxSpan) tip) with
    | .error e => .error e
    | .ok batch =>
      if min (start + maxSpan) tip = tip then .ok batch
      else
        match paginateE fetch (min (start + maxSpan) tip + 1) tip maxSpan with
        | .error e => .error e
        | .ok rest => .ok (batch ++ rest)
  else .ok []
  termination_by tip + 1 - start
  decreasing_by omega

theorem subRanges_of_not_le {start tip maxSpan : Nat} (h : ¬ start ≤ tip) :
    subRanges start tip maxSpan = [] := by
  rw [subRanges]
  simp [h]

theorem subRanges_of_le {start tip maxSpan : Nat} (h : start ≤ tip) :
    subRanges start tip maxSpan =
      (if min (start + maxSpan) tip = tip then
        [(start, min (start + maxSpan) tip)]
      else
        (start, min (start + maxSpan) tip) ::
          subRanges (min (start + maxSpan) tip + 1) tip maxSpan) := by
  rw [subRanges]
  simp [h]

theorem paginate_of_le {α : Type} (fetch : Nat → Nat → List α) {start tip maxSpan : Nat}
    (h : start ≤ tip) :
    paginate fetch start tip maxSpan =
      (if min (start + maxSpan) tip = tip then
        fetch start (min (start + maxSpan) tip)
      else
        fetch start (min (start + maxSpan) tip) ++
          paginate fetch (min (start + maxSpan) tip + 1) tip maxSpan) := by
  rw [paginate]
  simp [h]

theorem paginate_of_not_le {α : Type} (fetch : Nat → Nat → List α) {start tip maxSpan : Nat}
    (h : ¬ start ≤ tip) : paginate fetch start tip maxSpan = [] := by
  rw [paginate]
  simp [h]

/-- Every sub-range produced by the loop sits inside `[start, tip]` and is
well-formed. -/
theorem subRanges_mem_bounds {start tip maxSpan : Nat} :
    ∀ r ∈ subRanges start tip maxSpan, start ≤ r.1 ∧ r.1 ≤ r.2 ∧ r.2 ≤ tip := by
  induction start, tip, maxSpan using subRanges.induct with
  | case1 start tip maxSpan h hmin =>
    rw [subRanges_of_le h, if_pos hmin]
    intro r hr
    simp at hr
    subst hr
    simp
    omega
  | case2 start tip maxSpan h hmin ih =>
    rw [subRanges_of_le h, if_neg hmin]
    intro r hr
    rcases List.mem_cons.mp hr with h1 | h2
    · subst h1; simp; omega
    · have := ih r h2
      omega
  | case3 start tip maxSpan h =>
    rw [subRanges_of_not_le h]
    intro r hr
    simp at hr

/-- When the loop runs at all, its first sub-range starts at `start` and ends
at `min (start + maxSpan) tip`. -/
theorem subRanges_head {start tip maxSpan : Nat} (h : start ≤ tip) :
    (subRanges start tip maxSpan).head? = some (start, min (start + maxSpan) tip) := by
  rw [subRanges_of_le h]
  by_cases hmin : min (start + maxSpan) tip = tip <;> simp [hmin]

/-- Each produced sub-range `[from, to]` satisfies `to = min (from + maxSpan) tip`. -/
theorem subRanges_to_eq {start tip maxSpan : Nat} :
    ∀ r ∈ subRanges start tip maxSpan, r.2 = min (r.1 + maxSpan) tip := by
  induction start, tip, maxSpan using subRanges.induct with
  | case1 start tip maxSpan h hmin =>
    rw [subRanges_of_le h, if_pos hmin]
    intro r hr
    simp at hr
    subst hr
    simp
  | case2 start tip maxSpan h hmin ih =>
    rw [subRanges_of_le h, if_neg hmin]
    intro r hr
    rcases List.mem_cons.mp hr with h1 | h2
    · subst h1; simp
    · exact ih r h2
  | case3 start tip maxSpan h =>
    rw [subRanges_of_not_le h]
    intro r hr
    simp at hr

/-- Consecutive sub-ranges are contiguous: each starts right after the
previous one ends. -/
theorem subRanges_chain {start tip maxSpan : Nat} :
    List.Chain' (fun a b : Nat × Nat => b.1 = a.2 + 1) (subRanges start tip maxSpan) := by
  induction start, tip, maxSpan using subRanges.induct with
  | case1 start tip maxSpan h hmin =>
    rw [subRanges_of_le h, if_pos hmin]
    simp
  | case2 start tip maxSpan h hmin ih =>
    rw [subRanges_of_le h, if_neg hmin]
    refine List.chain'_cons'.mpr ⟨?_, ih⟩
    intro y hy
    have h2 : min (start + maxSpan) tip + 1 ≤ tip := by omega
    rw [subRanges_head h2] at hy
    simp at hy
    subst hy
    simp
  | case3 start tip maxSpan h =>
    rw [subRanges_of_not_le h]
    simp

/-- Sub-ranges are pairwise non-overlapping: any earlier range ends strictly
before any later one starts. -/
theorem subRanges_pairwise {start tip maxSpan : Nat} :
    List.Pairwise (fun a b : Nat × Nat => a.2 < b.1) (subRanges start tip maxSpan) := by
  induction start, tip, maxSpan using subRanges.induct with
  | case1 start tip maxSpan h hmin =>
    rw [subRanges_of_le h, if_pos hmin]
    simp
  | case2 start tip maxSpan h hmin ih =>
    rw [subRanges_of_le h, if_neg hmin]
    refine List.pairwise_cons.mpr ⟨?_, ih⟩
    intro r hr
    have := subRanges_mem_bounds r hr
    simp
    omega
  | case3 start tip maxSpan h =>
    rw [subRanges_of_not_le h]
    simp

/-- The sub-ranges cover exactly the interval `[start, tip]`. -/
theorem subRanges_cover {start tip maxSpan : Nat} (h : start ≤ tip) :
    ∀ b : Nat, (∃ r ∈ subRanges start tip maxSpan, r.1 ≤ b ∧ b ≤ r.2) ↔
      (start ≤ b ∧ b ≤ tip) := by
  induction start, tip, maxSpan using subRanges.induct with
  | case1 start tip maxSpan h1 hmin =>
    rw [subRanges_of_le h1, if_pos hmin]
    intro b
    simp
    omega
  | case2 start tip maxSpan h1 hmin ih =>
    rw [subRanges_of_le h1, if_neg hmin]
    intro b
    have h2 : min (start + maxSpan) tip + 1 ≤ tip := by omega
    have ihb := ih h2 b
    constructor
    · rintro ⟨r, hr, hb1, hb2⟩
      rcases List.mem_cons.mp hr with he | ht
      · subst he; simp at hb1 hb2; omega
      · have := ihb.mp ⟨r, ht, hb1, hb2⟩
        omega
    · rintro ⟨hb1, hb2⟩
      by_cases hcase : b ≤ min (start + maxSpan) tip
      · exact ⟨(start, min (start + maxSpan) tip), List.mem_cons_self _ _, hb1, hcase⟩
      · have ⟨r, hr, hrb⟩ := ihb.mpr (by omega)
        exact ⟨r, List.mem_cons_of_mem _ hr, hrb⟩
  | case3 start tip maxSpan h1 =>
    exact absurd h h1

/-- The loop's result is the concatenation, in sub-range order, of the fetch
results — no re-sorting. -/
theorem paginate_eq_flatten {α : Type} (fetch : Nat → Nat → List α) (start tip maxSpan : Nat) :
    paginate fetch start tip maxSpan =
      ((subRanges start tip maxSpan).map (fun r => fetch r.1 r.2)).flatten := by
  induction start, tip, maxSpan using subRanges.induct with
  | case1 start tip maxSpan h hmin =>
    rw [subRanges_of_le h, if_pos hmin, paginate_of_le fetch h, if_pos hmin]
    simp
  | case2 start tip maxSpan h hmin ih =>
    rw [subRanges_of_le h, if_neg hmin, paginate_of_le fetch h, if_neg hmin]
    simp [ih]
  | case3 start tip maxSpan h =>
    rw [subRanges_of_not_le h, paginate_of_not_le fetch h]
    simp

/-- C1.  Paginator coverage and order: for `start ≤ tip` and `maxSpan > 0`,
the pagination loop of `fetchAllTasks` / `fetchAllEvents` produces sub-ranges
`[from, to]` with `to = min (from + maxSpan) tip` that are contiguous,
pairwise non-overlapping, and cover exactly `[start, tip]`; and the loop's
result is the concatenation of the `fetch from to` results in sub-range
order, not re-sorted. -/
theorem paginator_coverage_and_order {α : Type} (start tip maxSpan : Nat)
    (hst : start ≤ tip) (_hspan : 0 < maxSpan) :
    (∀ r ∈ subRanges start tip maxSpan, r.2 = min (r.1 + maxSpan) tip) ∧
    List.Chain' (fun a b : Nat × Nat => b.1 = a.2 + 1) (subRanges start tip maxSpan) ∧
    List.Pairwise (fun a b : Nat × Nat => a.2 < b.1) (subRanges start tip maxSpan) ∧
    (∀ b : Nat, (∃ r ∈ subRanges start tip maxSpan, r.1 ≤ b ∧ b ≤ r.2) ↔
      (start ≤ b ∧ b ≤ tip)) ∧
    (∀ fetch : Nat → Nat → List α, paginate fetch start tip maxSpan =
      ((subRanges start tip maxSpan).map (fun r => fetch r.1 r.2)).flatten) :=
  ⟨subRanges_to_eq, subRanges_chain, subRanges_pairwise, subRanges_cover hst,
    fun fetch => paginate_eq_flatten fetch start tip maxSpan⟩

/-- Witness for C1 at `start = 5`, `tip = 20`, `maxSpan = 3`. -/
theorem paginator_coverage_and_order_witness :
    (5 ≤ 20 ∧ 0 < 3) ∧
    (∀ r ∈ subRanges 5 20 3, r.2 = min (r.1 + 3) 20) ∧
    List.Chain' (fun a b : Nat × Nat => b.1 = a.2 + 1) (subRanges 5 20 3) ∧
    List.Pairwise (fun a b : Nat × Nat => a.2 < b.1) (subRanges 5 20 3) ∧
    (∀ b : Nat, (∃ r ∈ subRanges 5 20 3, r.1 ≤ b ∧ b ≤ r.2) ↔ (5 ≤ b ∧ b ≤ 20)) ∧
    (∀ fetch : Nat → Nat → List Nat, paginate fetch 5 20 3 =
      ((subRanges 5 20 3).map (fun r => fetch r.1 r.2)).flatten) :=
  ⟨⟨by decide, by decide⟩,
    paginator_coverage_and_order (α := Nat) 5 20 3 (by decide) (by decide)⟩

/-- The number of loop iterations (= sub-ranges = fetch calls) for
`start ≤ tip` is `(tip - start + 1 + maxSpan) / (maxSpan + 1)`, which is
`ceil ((tip - start + 1) / (maxSpan + 1))` in exact arithmetic. -/
theorem subRanges_length {start tip maxSpan : Nat} (h : start ≤ tip) :
    (subRanges start tip maxSpan).length = (tip - start + 1 + maxSpan) / (maxSpan + 1) := by
  induction start, tip, maxSpan using subRanges.induct with
  | case1 start tip maxSpan h1 hmin =>
    rw [subRanges_of_le h1, if_pos hmin]
    simp only [List.length_cons, List.length_nil]
    symm
    exact Nat.div_eq_of_lt_le (by omega) (by omega)
  | case2 start tip maxSpan h1 hmin ih =>
    rw [subRanges_of_le h1, if_neg hmin]
    have h2 : min (start + maxSpan) tip + 1 ≤ tip := by omega
    rw [List.length_cons, ih h2]
    have e1 : tip - (min (start + maxSpan) tip + 1) + 1 + maxSpan = tip - start := by omega
    have e2 : tip - start + 1 + maxSpan = (tip - start) + (maxSpan + 1) := by omega
    rw [e1, e2, Nat.add_div_right _ (by omega)]
  | case3 start tip maxSpan h1 =>
    exact absurd h h1

/-- C2.  Paginator sub-range count: for `start ≤ tip` and `maxSpan > 0` the
pagination loop performs exactly `ceil ((tip - start + 1) / (maxSpan + 1))`
iterations — written here in the equivalent form
`(tip - start + 1 + maxSpan) / (maxSpan + 1)` using `Nat` floor division —
so that many sub-ranges and that many fetch calls; and for `start > tip`
zero sub-ranges are produced and the result is empty. -/
theorem paginator_subrange_count {α : Type} (start tip maxSpan : Nat) :
    (start ≤ tip → 0 < maxSpan →
      (subRanges start tip maxSpan).length = (tip - start + 1 + maxSpan) / (maxSpan + 1)) ∧
    (tip < start → subRanges start tip maxSpan = [] ∧
      ∀ fetch : Nat → Nat → List α, paginate fetch start tip maxSpan = []) :=
  ⟨fun h _ => subRanges_length h,
    fun h => ⟨subRanges_of_not_le (by omega),
      fun fetch => paginate_of_not_le fetch (by omega)⟩⟩

/-- Witness for C2: 16 blocks with span 3 give `⌈16/4⌉ = 4` sub-ranges, and
`tip < start` gives none. -/
theorem paginator_subrange_count_witness :
    ((5 : Nat) ≤ 20 ∧ (0 : Nat) < 3 ∧
      (subRanges 5 20 3).length = (20 - 5 + 1 + 3) / (3 + 1)) ∧
    ((3 : Nat) < 7 ∧ subRanges 7 3 5 = [] ∧
      ∀ fetch : Nat → Nat → List Nat, paginate fetch 7 3 5 = []) :=
  ⟨⟨by decide, by decide, (paginator_subrange_count (α := Nat) 5 20 3).1 (by decide) (by decide)⟩,
    ⟨by decide, ((paginator_subrange_count (α := Nat) 7 3 5).2 (by decide)).1,
      ((paginator_subrange_count (α := Nat) 7 3 5).2 (by decide)).2⟩⟩

/-- A `TaskIssued` log as used by `TasksList.tsx`: the fields of the viem
`Log` and of `Task.args` that the component reads.  Hex data (hashes,
addresses, input bytes) is kept as `String`. -/
structure Task where
  transactionHash : String
  blockNumber : Nat
  machineHash : String
  input : String
  callback : String
  deriving Repr, DecidableEq

/-- The local state of the `TasksList` component relevant to fetching:
`tasks` (lifted to `App` via props), `isLoading` and `error`. -/
structure TasksState where
  tasks : List Task
  isLoading : Bool
  error : Option String
  deriving Repr, DecidableEq

/-- `fetchAllTasks` from `TasksList.tsx`: the pagination loop from
`GENESIS_TASKS` to the current tip with span `BLOCK_RANGE`, where `fetch`
models `fetchTasksInRange` (a network call that may reject). -/
def fetchAllTasks (fetch : Nat → Nat → Except String (List Task)) (latestBlock : Nat) :
    Except String (List Task) :=
  paginateE fetch GENESIS_TASKS latestBlock BLOCK_RANGE

/-- The per-task transaction lookup in `fetchTasks`
(`Promise.all (fetchedTasks.map ...)` with `client.getTransaction`):
`getTransactionFrom` models looking up the `from` field of the transaction
with a given hash; any rejection fails the whole lookup (fail-fast). -/
def senderLookup (getTransactionFrom : String → Except String String) (ts : List Task) :
    Except String (List (Task × String)) :=
  ts.mapM (fun task => (getTransactionFrom task.transactionHash).map (fun frm => (task, frm)))

/-- The sender post-filter step in `fetchTasks`:
`userTasks.filter (fun p => p.from.toLowerCase() === formattedAddress)
  .map (fun p => p.task)`
where `formattedAddress` is the user address already lower-cased. -/
def filterBySender (userTasks : List (Task × String)) (formattedAddress : String) : List Task :=
  (userTasks.filter (fun p => p.2.toLower == formattedAddress)).map Prod.fst

/-- The body of the `try` block of `fetchTasks`: lower-case the address,
run the paginated fetch, resolve each task's transaction sender, and keep
only the tasks whose sender matches. -/
def fetchTasksResult (userAddress : String) (fetch : Nat → Nat → Except String (List Task))
    (getTransactionFrom : String → Except String String) (latestBlock : Nat) :
    Except String (List Task) := do
  let formattedAddress := userAddress.toLower
  let fetchedTasks ← fetchAllTasks fetch latestBlock
  let userTasks ← senderLookup getTransactionFrom fetchedTasks
  pure (filterBySender userTasks formattedAddress)

/-- `fetchTasks` from `TasksList.tsx` as a state transformer: an empty
address sets a validation error and returns before any other effect;
otherwise the loading flag is set and the error cleared, the fetch pipeline
runs, success stores the filtered tasks and failure stores the error
message, and the `finally` clause clears the loading flag. -/
def fetchTasks (userAddress : String) (fetch : Nat → Nat → Except String (List Task))
    (getTransactionFrom : String → Except String String) (latestBlock : Nat)
    (s : TasksState) : TasksState :=
  if userAddress = "" then
    { s with error := some "Please enter a valid address" }
  else
    let s1 : TasksState := { s with isLoading := true, error := none }
    match fetchTasksResult userAddress fetch getTransactionFrom latestBlock with
    | .ok filteredTasks => { s1 with tasks := filteredTasks, isLoading := false }
    | .error msg => { s1 with error := some msg, isLoading := false }

/-- A `NoticeReceived` log as used by `EventsList`. -/
structure Event where
  transactionHash : String
  blockNumber : Nat
  payloadHash : String
  user : String
  notice : String
  deriving Repr, DecidableEq

/-- The local state of the `EventsList` component. -/
structure EventsState where
  events : List Event
  isLoading : Bool
  error : Option String
  deriving Repr, DecidableEq

/-- `fetchAllEvents` from `EventsList`: the same pagination loop from
`GENESIS_EVENTS`, where `fetch` models `fetchEventsInRange` for the selected
payload hash. -/
def fetchAllEvents (fetch : Nat → Nat → Except String (List Event)) (latestBlock : Nat) :
    Except String (List Event) :=
  paginateE fetch GENESIS_EVENTS latestBlock BLOCK_RANGE

/-- The try/catch/finally continuation of `fetchEvents`: on success store
the fetched events (`setEvents`), on failure store the message
(`setError`), and in either case clear the loading flag (`finally`). -/
def settleEvents : Except String (List Event) → EventsState → EventsState
  | .ok evs, s1 => { s1 with events := evs, isLoading := false }
  | .error msg, s1 => { s1 with error := some msg, isLoading := false }

/-- `fetchEvents` from `EventsList` as a state transformer: sets loading,
clears the error, runs the paginated fetch, and settles the outcome via
`settleEvents`. -/
def fetchEvents (fetch : Nat → Nat → Except String (List Event)) (latestBlock : Nat)
    (s : EventsState) : EventsState :=
  let s1 : EventsState := { s with isLoading := true, error := none }
  settleEvents (fetchAllEvents fetch latestBlock) s1

/-- Case-insensitive address equality, the spec's wording for the sender
filter ("sender equals the supplied address under case-insensitive
comparison"). -/
def CaseInsensitiveMatch (a b : String) : Prop := a.toLower = b.toLower

instance (a b : String) : Decidable (CaseInsensitiveMatch a b) := by
  unfold CaseInsensitiveMatch
  infer_instance

/-- C3.  Sender post-filter: the filtering step of `fetchTasks` returns
exactly the tasks whose transaction sender matches the supplied address
case-insensitively (spec-side predicate `CaseInsensitiveMatch`), as a
sublist (hence in the same relative order) of the fetched tasks; membership
is characterised accordingly. -/
theorem sender_post_filter (userTasks : List (Task × String)) (userAddress : String) :
    filterBySender userTasks userAddress.toLower =
      (userTasks.filter (fun p => decide (CaseInsensitiveMatch p.2 userAddress))).map Prod.fst ∧
    List.Sublist (filterBySender userTasks userAddress.toLower) (userTasks.map Prod.fst) ∧
    (∀ t : Task, t ∈ filterBySender userTasks userAddress.toLower ↔
      ∃ s : String, (t, s) ∈ userTasks ∧ CaseInsensitiveMatch s userAddress) := by
  refine ⟨?_, ?_, ?_⟩
  · unfold filterBySender CaseInsensitiveMatch
    congr 1
  · exact List.Sublist.map Prod.fst (List.filter_sublist userTasks)
  · intro t
    unfold filterBySender CaseInsensitiveMatch
    constructor
    · intro ht
      rcases List.mem_map.mp ht with ⟨p, hp, hpt⟩
      have := List.mem_filter.mp hp
      refine ⟨p.2, ?_, ?_⟩
      · rcases p with ⟨p1, p2⟩
        cases hpt
        exact this.1
      · have hb := this.2
        simpa [beq_iff_eq] using hb
    · rintro ⟨s, hs, hmatch⟩
      refine List.mem_map.mpr ⟨(t, s), List.mem_filter.mpr ⟨hs, ?_⟩, rfl⟩
      simpa [beq_iff_eq] using hmatch

theorem paginateE_of_le {ε α : Type} (fetch : Nat → Nat → Except ε (List α))
    {start tip maxSpan : Nat} (h : start ≤ tip) :
    paginateE fetch start tip maxSpan =
      (match fetch start (min (start + maxSpan) tip) with
      | .error e => .error e
      | .ok batch =>
        if min (start + maxSpan) tip = tip then .ok batch
        else
          match paginateE fetch (min (start + maxSpan) tip + 1) tip maxSpan with
          | .error e => .error e
          | .ok rest => .ok (batch ++ rest)) := by
  rw [paginateE]
  simp [h]

theorem paginateE_of_not_le {ε α : Type} (fetch : Nat → Nat → Except ε (List α))
    {start tip maxSpan : Nat} (h : ¬ start ≤ tip) :
    paginateE fetch start tip maxSpan = .ok [] := by
  rw [paginateE]
  simp [h]

/-- If every sub-range before some sub-range `r` fetches successfully and
`r` itself fails with `e`, the whole loop fails with `e`.  The behaviour of
`fetch` on the sub-ranges after `r` is unconstrained, so no later sub-range
is consulted. -/
theorem paginateE_error_of_subrange {ε α : Type} :
    ∀ (pre : List (Nat × Nat)) (start tip maxSpan : Nat) (r : Nat × Nat)
      (post : List (Nat × Nat)) (fetch : Nat → Nat → Except ε (List α)) (e : ε),
      subRanges start tip maxSpan = pre ++ r :: post →
      (∀ q ∈ pre, ∃ v, fetch q.1 q.2 = .ok v) →
      fetch r.1 r.2 = .error e →
      paginateE fetch start tip maxSpan = .error e := by
  intro pre
  induction pre with
  | nil =>
    intro start tip maxSpan r post fetch e hsub _hpre hr
    by_cases hle : start ≤ tip
    · rw [subRanges_of_le hle] at hsub
      have hr1 : r = (start, min (start + maxSpan) tip) := by
        by_cases hmin : min (start + maxSpan) tip = tip
        · rw [if_pos hmin] at hsub
          simp at hsub
          exact hsub.1.symm
        · rw [if_neg hmin] at hsub
          simp at hsub
          exact hsub.1.symm
      rw [hr1] at hr
      simp only at hr
      rw [paginateE_of_le fetch hle]
      simp only [hr]
    · rw [subRanges_of_not_le hle] at hsub
      simp at hsub
  | cons q pre' ih =>
    intro start tip maxSpan r post fetch e hsub hpre hr
    by_cases hle : start ≤ tip
    · rw [subRanges_of_le hle] at hsub
      by_cases hmin : min (start + maxSpan) tip = tip
      · rw [if_pos hmin] at hsub
        simp at hsub
      · rw [if_neg hmin] at hsub
        simp only [List.cons_append, List.cons.injEq] at hsub
        obtain ⟨hq, htail⟩ := hsub
        obtain ⟨v, hv⟩ := hpre q (List.mem_cons_self q pre')
        rw [← hq] at hv
        simp only at hv
        have hrec := ih (min (start + maxSpan) tip + 1) tip maxSpan r post fetch e htail
          (fun p hp => hpre p (List.mem_cons_of_mem q hp)) hr
        rw [paginateE_of_le fetch hle]
        simp only [hv, hrec, if_neg hmin]
    · rw [subRanges_of_not_le hle] at hsub
      simp at hsub

/-- C4.  Fail-fast pagination: if `fetch` fails on a sub-range (all earlier
sub-ranges succeeding), the whole paginated operation fails with that error
and yields no partial result; the quantification leaves `fetch`'s behaviour
on later sub-ranges completely unconstrained, so no later sub-range result
can influence the outcome.  In the surrounding `fetchTasks`, the error is
caught: the existing task-list state is left unchanged and the message is
stored. -/
theorem failfast_pagination {α : Type} :
    (∀ (start tip maxSpan : Nat) (pre : List (Nat × Nat)) (r : Nat × Nat)
      (post : List (Nat × Nat)) (fetch : Nat → Nat → Except String (List α)) (e : String),
      subRanges start tip maxSpan = pre ++ r :: post →
      (∀ q ∈ pre, ∃ v, fetch q.1 q.2 = .ok v) →
      fetch r.1 r.2 = .error e →
      paginateE fetch start tip maxSpan = .error e) ∧
    (∀ (userAddress : String) (fetch : Nat → Nat → Except String (List Task))
      (getTransactionFrom : String → Except String String) (latestBlock : Nat)
      (msg : String) (s : TasksState), userAddress ≠ "" →
      fetchTasksResult userAddress fetch getTransactionFrom latestBlock = .error msg →
      (fetchTasks userAddress fetch getTransactionFrom latestBlock s).tasks = s.tasks ∧
      (fetchTasks userAddress fetch getTransactionFrom latestBlock s).error = some msg ∧
      (fetchTasks userAddress fetch getTransactionFrom latestBlock s).isLoading = false) := by
  constructor
  · intro start tip maxSpan pre r post fetch e hsub hpre hr
    exact paginateE_error_of_subrange pre start tip maxSpan r post fetch e hsub hpre hr
  · intro userAddress fetch getTransactionFrom latestBlock msg s haddr hres
    unfold fetchTasks
    rw [if_neg haddr, hres]
    simp

/-- Witness for C4 at `start = 0`, `tip = 10`, `maxSpan = 4` with a fetch
that succeeds on the first sub-range and fails on the second, and a
`fetchTasks` run whose pipeline fails. -/
theorem failfast_pagination_witness :
    (subRanges 0 10 4 = [(0, 4)] ++ (5, 9) :: [(10, 10)] ∧
      paginateE (fun a _ => if a = 0 then .ok [1] else .error "boom") 0 10 4 =
        (.error "boom" : Except String (List Nat))) ∧
    ((fetchTasks "0xa" (fun _ _ => .error "boom") (fun _ => .ok "") 3358671
        ⟨[], false, none⟩).tasks = [] ∧
      (fetchTasks "0xa" (fun _ _ => .error "boom") (fun _ => .ok "") 3358671
        ⟨[], false, none⟩).error = some "boom") := by
  have hsub : subRanges 0 10 4 = [(0, 4)] ++ (5, 9) :: [(10, 10)] := by
    rw [subRanges_of_le (by decide)]
    norm_num
    rw [subRanges_of_le (by decide)]
    norm_num
    rw [subRanges_of_le (by decide)]
    norm_num
  have hres : fetchTasksResult "0xa" (fun _ _ => .error "boom") (fun _ => .ok "") 3358671 =
      .error "boom" := by
    unfold fetchTasksResult fetchAllTasks
    rw [paginateE_of_le _ (by decide)]
    rfl
  refine ⟨⟨hsub, ?_⟩, ?_, ?_⟩
  · exact failfast_pagination.1 0 10 4 [(0, 4)] (5, 9) [(10, 10)]
      (fun a _ => if a = 0 then .ok [1] else .error "boom") "boom" hsub
      (by intro q hq; simp at hq; subst hq; exact ⟨[1], rfl⟩) rfl
  · exact ((failfast_pagination (α := Nat)).2 "0xa" _ _ 3358671 "boom" ⟨[], false, none⟩
      (by decide) hres).1
  · exact ((failfast_pagination (α := Nat)).2 "0xa" _ _ 3358671 "boom" ⟨[], false, none⟩
      (by decide) hres).2.1

/-- C9.  Empty-address validation: invoking `fetchTasks` with an empty
address only sets the validation error — the result does not depend on the
fetch functions or the chain tip (no network call is modelled as being
consulted), the loading flag is never set and the task list is untouched;
and for any non-empty address the loading flag is `false` once the
operation completes, whether the pipeline succeeded or failed. -/
theorem empty_address_validation :
    (∀ (fetch fetch' : Nat → Nat → Except String (List Task))
      (getTransactionFrom getTransactionFrom' : String → Except String String)
      (latestBlock latestBlock' : Nat) (s : TasksState),
      fetchTasks "" fetch getTransactionFrom latestBlock s =
        { s with error := some "Please enter a valid address" } ∧
      fetchTasks "" fetch getTransactionFrom latestBlock s =
        fetchTasks "" fetch' getTransactionFrom' latestBlock' s ∧
      (fetchTasks "" fetch getTransactionFrom latestBlock s).isLoading = s.isLoading ∧
      (fetchTasks "" fetch getTransactionFrom latestBlock s).tasks = s.tasks) ∧
    (∀ (userAddress : String) (fetch : Nat → Nat → Except String (List Task))
      (getTransactionFrom : String → Except String String) (latestBlock : Nat)
      (s : TasksState), userAddress ≠ "" →
      (fetchTasks userAddress fetch getTransactionFrom latestBlock s).isLoading = false) := by
  constructor
  · intro fetch fetch' getTransactionFrom getTransactionFrom' latestBlock latestBlock' s
    have h1 : fetchTasks "" fetch getTransactionFrom latestBlock s =
        { s with error := some "Please enter a valid address" } := rfl
    have h2 : fetchTasks "" fetch' getTransactionFrom' latestBlock' s =
        { s with error := some "Please enter a valid address" } := rfl
    exact ⟨h1, h1.trans h2.symm, by rw [h1], by rw [h1]⟩
  · intro userAddress fetch getTransactionFrom latestBlock s haddr
    unfold fetchTasks
    rw [if_neg haddr]
    cases fetchTasksResult userAddress fetch getTransactionFrom latestBlock <;> rfl

/-- Witness for C9: a non-empty address leaves the loading flag cleared. -/
theorem empty_address_validation_witness :
    "0xab" ≠ "" ∧
    (fetchTasks "0xab" (fun _ _ => .ok []) (fun _ => .ok "") 0
      ⟨[], false, none⟩).isLoading = false :=
  ⟨by decide,
    empty_address_validation.2 "0xab" (fun _ _ => .ok []) (fun _ => .ok "") 0
      ⟨[], false, none⟩ (by decide)⟩

/-- C10.  Error reset: both fetch operations clear the displayed error
before any work, so a successful run always ends with `error = none`, even
when the previous state carried a stale error message; the successful
results are stored. -/
theorem error_reset_on_success :
    (∀ (userAddress : String) (fetch : Nat → Nat → Except String (List Task))
      (getTransactionFrom : String → Except String String) (latestBlock : Nat)
      (s : TasksState) (ts : List Task), userAddress ≠ "" →
      fetchTasksResult userAddress fetch getTransactionFrom latestBlock = .ok ts →
      (fetchTasks userAddress fetch getTransactionFrom latestBlock s).error = none ∧
      (fetchTasks userAddress fetch getTransactionFrom latestBlock s).tasks = ts) ∧
    (∀ (fetch : Nat → Nat → Except String (List Event)) (latestBlock : Nat)
      (s : EventsState) (evs : List Event),
      fetchAllEvents fetch latestBlock = .ok evs →
      (fetchEvents fetch latestBlock s).error = none ∧
      (fetchEvents fetch latestBlock s).events = evs) := by
  constructor
  · intro userAddress fetch getTransactionFrom latestBlock s ts haddr hres
    unfold fetchTasks
    rw [if_neg haddr, hres]
    exact ⟨rfl, rfl⟩
  · intro fetch latestBlock s evs hres
    have h : fetchEvents fetch latestBlock s =
        settleEvents (fetchAllEvents fetch latestBlock)
          { s with isLoading := true, error := none } := rfl
    rw [h, hres]
    exact ⟨rfl, rfl⟩

/-- Witness for C10 with a stale error in both components' previous state. -/
theorem error_reset_on_success_witness :
    ("0xa" ≠ "" ∧
      fetchTasksResult "0xa" (fun _ _ => .ok []) (fun _ => .ok "") 0 = .ok [] ∧
      (fetchTasks "0xa" (fun _ _ => .ok []) (fun _ => .ok "") 0
        ⟨[], false, some "stale"⟩).error = none) ∧
    (fetchAllEvents (fun _ _ => .ok []) 0 = .ok [] ∧
      (fetchEvents (fun _ _ => .ok []) 0 ⟨[], false, some "stale"⟩).error = none) := by
  have htasks : fetchTasksResult "0xa" (fun _ _ => .ok []) (fun _ => .ok "") 0 = .ok [] := by
    unfold fetchTasksResult fetchAllTasks
    rw [paginateE_of_not_le _ (by decide)]
    rfl
  have hevents : fetchAllEvents (fun _ _ => (.ok [] : Except String (List Event))) 0 = .ok [] := by
    unfold fetchAllEvents
    rw [paginateE_of_not_le _ (by decide)]
  refine ⟨⟨by decide, htasks, ?_⟩, hevents, ?_⟩
  · exact (error_reset_on_success.1 "0xa" (fun _ _ => .ok []) (fun _ => .ok "") 0
      ⟨[], false, some "stale"⟩ [] (by decide) htasks).1
  · exact (error_reset_on_success.2 (fun _ _ => .ok []) 0 ⟨[], false, some "stale"⟩ []
      hevents).1

/-- The view-level projection of a selected task passed to the detail
screen (`InputDetails` in `App`). -/
structure InputDetails where
  hash : String
  blockNumber : String
  deriving Repr, DecidableEq

/-- The state held by the `App` component: the selected payload hash, the
selected task's input-transaction details, the address input and the task
list (lifted out of `TasksList`). -/
structure AppState where
  selectedPayloadHash : Option String
  inputDetails : Option InputDetails
  userAddress : String
  tasks : List Task
  deriving Repr, DecidableEq

/-- The two screens of the view controller. -/
inductive View where
  | Listing
  | Detail
  deriving Repr, DecidableEq

/-- `App` renders the Detail screen exactly when a payload hash is
selected (`selectedPayloadHash ? ... : ...`). -/
def currentView (s : AppState) : View :=
  match s.selectedPayloadHash with
  | some _ => View.Detail
  | none => View.Listing

/-- `handleTaskClick` from `App`: store the payload hash and the input
transaction's hash and block number. -/
def handleTaskClick (payloadHash inputTx blockNumber : String) (s : AppState) : AppState :=
  { s with selectedPayloadHash := some payloadHash,
           inputDetails := some ⟨inputTx, blockNumber⟩ }

/-- The back button of `App`: `setSelectedPayloadHash(null)`. -/
def handleBack (s : AppState) : AppState :=
  { s with selectedPayloadHash := none }

/-- Clicking a task card in `TasksList` invokes `onTaskClick` with
`computePayloadHash task.args.input` (that is, `keccak256` of the input,
modelled by the function parameter `keccak256`), the task's transaction
hash, and its block number rendered in base 10. -/
def selectTask (keccak256 : String → String) (task : Task) (s : AppState) : AppState :=
  handleTaskClick (keccak256 task.input) task.transactionHash (Nat.repr task.blockNumber) s

/-- C8.  View transitions: selecting a task moves the view to Detail,
carrying the keccak256-derived payload hash of the task's input and the
task's transaction hash / base-10 block number in `inputDetails`, while the
task list is untouched; the back action moves any state to Listing,
discards the selection, and leaves both the task list and the stored
`inputDetails` unchanged (no refetch of tasks is modelled, as none occurs:
`handleBack` only clears the selection). -/
theorem view_transitions (keccak256 : String → String) (task : Task) (s : AppState) :
    currentView (selectTask keccak256 task s) = View.Detail ∧
    (selectTask keccak256 task s).selectedPayloadHash = some (keccak256 task.input) ∧
    (selectTask keccak256 task s).inputDetails =
      some ⟨task.transactionHash, Nat.repr task.blockNumber⟩ ∧
    (selectTask keccak256 task s).tasks = s.tasks ∧
    (∀ s' : AppState, currentView (handleBack s') = View.Listing ∧
      (handleBack s').selectedPayloadHash = none ∧
      (handleBack s').tasks = s'.tasks ∧
      (handleBack s').inputDetails = s'.inputDetails) :=
  ⟨rfl, rfl, rfl, rfl, fun _ => ⟨rfl, rfl, rfl, rfl⟩⟩

/-!
Payload decoders.  JavaScript strings are modelled as lists of Unicode code
points (`List Nat`) and byte strings as lists of bytes (`List Nat`, each
`< 256`).  The external library functions used by the source
(viem's `hexToString`, `JSON.parse`, `decodeAbiParameters`) are modelled
concretely below on the fragment this application exercises; any input they
reject is a thrown error in the source, modelled as `none`.
-/

/-- The numeric value of a hexadecimal digit code point (`0-9`, `a-f`,
`A-F`), or `none` for any other code point. -/
def hexDigitVal (c : Nat) : Option Nat :=
  if 48 ≤ c ∧ c ≤ 57 then some (c - 48)
  else if 97 ≤ c ∧ c ≤ 102 then some (c - 87)
  else if 65 ≤ c ∧ c ≤ 70 then some (c - 55)
  else none

/-- Parse pairs of hex digits into bytes; fails on an odd count or a
non-hex code point (model of viem's hex validation, which throws there). -/
def hexPairsToBytes : List Nat → Option (List Nat)
  | [] => some []
  | [_] => none
  | c1 :: c2 :: rest =>
    match hexDigitVal c1, hexDigitVal c2, hexPairsToBytes rest with
    | some h, some l, some bs => some ((h * 16 + l) :: bs)
    | _, _, _ => none

/-- Model of viem's hex-to-bytes conversion: requires the `0x` prefix
(code points 48, 120) followed by an even number of hex digits; throwing
(on malformed hex) is modelled as `none`. -/
def hexToBytes (s : List Nat) : Option (List Nat) :=
  match s with
  | 48 :: 120 :: rest => hexPairsToBytes rest
  | _ => none

/-- The lower-case hex digit for a value `< 16`. -/
def toHexDigit (n : Nat) : Nat := if n < 10 then 48 + n else 87 + n

/-- Encode bytes as a `0x`-prefixed lower-case hex string (the encoding
side of C7's round trip, modelled from the spec's "UTF-8 hex"). -/
def bytesToHex (bs : List Nat) : List Nat :=
  48 :: 120 :: bs.flatMap (fun b => [toHexDigit (b / 16), toHexDigit (b % 16)])

/-- UTF-8 encoding of one Unicode code point (1-4 bytes). -/
def utf8EncodeChar (n : Nat) : List Nat :=
  if n < 128 then [n]
  else if n < 2048 then [192 + n / 64, 128 + n % 64]
  else if n < 65536 then [224 + n / 4096, 128 + n / 64 % 64, 128 + n % 64]
  else [240 + n / 262144, 128 + n / 4096 % 64, 128 + n / 64 % 64, 128 + n % 64]

/-- UTF-8 encoding of a code-point string. -/
def utf8Encode (s : List Nat) : List Nat := s.flatMap utf8EncodeChar

/-- The Unicode replacement character. -/
def replacementChar : Nat := 65533

/-- The byte of `l` at index `i`, with the out-of-range sentinel `256`
(never a valid byte, in particular never a valid continuation byte). -/
def byteAt (l : List Nat) (i : Nat) : Nat := (l.get? i).getD 256

/-- Decode one UTF-8 sequence: given the lead byte `b` and the remaining
bytes, return the decoded code point and how many continuation bytes were
consumed.  Malformed sequences yield the replacement character. -/
def utf8DecodeOne (b : Nat) (rest : List Nat) : Nat × Nat :=
  if b < 128 then (b, 0)
  else if b < 192 then (replacementChar, 0)
  else if b < 224 then
    if 128 ≤ byteAt rest 0 ∧ byteAt rest 0 < 192 then
      ((b - 192) * 64 + (byteAt rest 0 - 128), 1)
    else (replacementChar, 1)
  else if b < 240 then
    if (128 ≤ byteAt rest 0 ∧ byteAt rest 0 < 192) ∧
        (128 ≤ byteAt rest 1 ∧ byteAt rest 1 < 192) then
      ((b - 224) * 4096 + (byteAt rest 0 - 128) * 64 + (byteAt rest 1 - 128), 2)
    else (replacementChar, 2)
  else
    if (128 ≤ byteAt rest 0 ∧ byteAt rest 0 < 192) ∧
        (128 ≤ byteAt rest 1 ∧ byteAt rest 1 < 192) ∧
        (128 ≤ byteAt rest 2 ∧ byteAt rest 2 < 192) then
      ((b - 240) * 262144 + (byteAt rest 0 - 128) * 4096 +
        (byteAt rest 1 - 128) * 64 + (byteAt rest 2 - 128), 3)
    else (replacementChar, 3)

/-- Fuel-driven UTF-8 decoding loop; one unit of fuel per decoded code
point, so `fuel = l.length` always suffices. -/
def utf8DecodeAux : Nat → List Nat → List Nat
  | 0, _ => []
  | fuel + 1, l =>
    if l.isEmpty then []
    else
      let r := utf8DecodeOne (byteAt l 0) l.tail
      r.1 :: utf8DecodeAux fuel (l.tail.drop r.2)

/-- Lenient UTF-8 decoding of a byte string into code points, modelling
the `TextDecoder` used by viem's `hexToString`: a decoding failure never
throws, malformed sequences yield replacement characters (the exact
placement of replacement characters on malformed input is irrelevant to
the claims, which only need totality there and exactness on valid
encodings). -/
def utf8Decode (l : List Nat) : List Nat := utf8DecodeAux l.length l

/-- Code points valid for the byte-level round trip: below `0x110000`. -/
def ValidCodepoints (s : List Nat) : Prop := ∀ c ∈ s, c < 1114112

instance (s : List Nat) : Decidable (ValidCodepoints s) := by
  unfold ValidCodepoints
  infer_instance

theorem utf8EncodeChar_lt_256 {n : Nat} (h : n < 1114112) :
    ∀ b ∈ utf8EncodeChar n, b < 256 := by
  unfold utf8EncodeChar
  split_ifs with h1 h2 h3 <;> intro b hb <;> simp at hb <;> omega

theorem utf8DecodeAux_nil (fuel : Nat) : utf8DecodeAux fuel [] = [] := by
  cases fuel <;> rfl

theorem utf8DecodeAux_cons (fuel b : Nat) (rest : List Nat) :
    utf8DecodeAux (fuel + 1) (b :: rest) =
      (utf8DecodeOne b rest).1 ::
        utf8DecodeAux fuel (rest.drop (utf8DecodeOne b rest).2) := rfl

theorem utf8DecodeAux_cons_eq {b v k : Nat} (fuel : Nat) (rest : List Nat)
    (hone : utf8DecodeOne b rest = (v, k)) :
    utf8DecodeAux (fuel + 1) (b :: rest) = v :: utf8DecodeAux fuel (rest.drop k) := by
  rw [utf8DecodeAux_cons, hone]

theorem utf8DecodeOne_one {b : Nat} (rest : List Nat) (h : b < 128) :
    utf8DecodeOne b rest = (b, 0) := by
  unfold utf8DecodeOne
  split_ifs <;> first | (exfalso; omega) | rfl

theorem utf8DecodeOne_two {b b1 : Nat} (rest : List Nat) (ha : 192 ≤ b) (hb : b < 224)
    (hc : 128 ≤ b1) (hd : b1 < 192) :
    utf8DecodeOne b (b1 :: rest) = ((b - 192) * 64 + (b1 - 128), 1) := by
  unfold utf8DecodeOne
  have e0 : byteAt (b1 :: rest) 0 = b1 := rfl
  rw [e0]
  split_ifs <;> first | (exfalso; omega) | rfl

theorem utf8DecodeOne_three {b b1 b2 : Nat} (rest : List Nat) (ha : 224 ≤ b) (hb : b < 240)
    (hc : 128 ≤ b1) (hd : b1 < 192) (he : 128 ≤ b2) (hf : b2 < 192) :
    utf8DecodeOne b (b1 :: b2 :: rest) =
      ((b - 224) * 4096 + (b1 - 128) * 64 + (b2 - 128), 2) := by
  unfold utf8DecodeOne
  have e0 : byteAt (b1 :: b2 :: rest) 0 = b1 := rfl
  have e1 : byteAt (b1 :: b2 :: rest) 1 = b2 := rfl
  rw [e0, e1]
  split_ifs <;> first | (exfalso; omega) | rfl

theorem utf8DecodeOne_four {b b1 b2 b3 : Nat} (rest : List Nat) (ha : 240 ≤ b)
    (hc : 128 ≤ b1) (hd : b1 < 192) (he : 128 ≤ b2) (hf : b2 < 192)
    (hg : 128 ≤ b3) (hh : b3 < 192) :
    utf8DecodeOne b (b1 :: b2 :: b3 :: rest) =
      ((b - 240) * 262144 + (b1 - 128) * 4096 + (b2 - 128) * 64 + (b3 - 128), 3) := by
  unfold utf8DecodeOne
  have e0 : byteAt (b1 :: b2 :: b3 :: rest) 0 = b1 := rfl
  have e1 : byteAt (b1 :: b2 :: b3 :: rest) 1 = b2 := rfl
  have e2 : byteAt (b1 :: b2 :: b3 :: rest) 2 = b3 := rfl
  rw [e0, e1, e2]
  split_ifs <;> first | (exfalso; omega) | rfl

/-- Decoding one encoded code point consumes exactly one unit of fuel and
recovers the code point. -/
theorem utf8DecodeAux_encodeChar {n : Nat} (h : n < 1114112) (fuel : Nat) (rest : List Nat) :
    utf8DecodeAux (fuel + 1) (utf8EncodeChar n ++ rest) = n :: utf8DecodeAux fuel rest := by
  unfold utf8EncodeChar
  split_ifs with h1 h2 h3
  · simp only [List.cons_append, List.nil_append]
    rw [utf8DecodeAux_cons_eq fuel rest (utf8DecodeOne_one rest h1)]
    simp only [List.drop_zero]
  · simp only [List.cons_append, List.nil_append]
    rw [utf8DecodeAux_cons_eq fuel _
      (utf8DecodeOne_two rest (by omega) (by omega) (by omega) (by omega))]
    simp only [List.drop_succ_cons, List.drop_zero]
    have e : (192 + n / 64 - 192) * 64 + (128 + n % 64 - 128) = n := by omega
    rw [e]
  · simp only [List.cons_append, List.nil_append]
    rw [utf8DecodeAux_cons_eq fuel _
      (utf8DecodeOne_three rest (by omega) (by omega) (by omega) (by omega) (by omega)
        (by omega))]
    simp only [List.drop_succ_cons, List.drop_zero]
    have e : (224 + n / 4096 - 224) * 4096 + (128 + n / 64 % 64 - 128) * 64 +
        (128 + n % 64 - 128) = n := by omega
    rw [e]
  · simp only [List.cons_append, List.nil_append]
    rw [utf8DecodeAux_cons_eq fuel _
      (utf8DecodeOne_four rest (by omega) (by omega) (by omega) (by omega) (by omega)
        (by omega) (by omega))]
    simp only [List.drop_succ_cons, List.drop_zero]
    have e : (240 + n / 262144 - 240) * 262144 + (128 + n / 4096 % 64 - 128) * 4096 +
        (128 + n / 64 % 64 - 128) * 64 + (128 + n % 64 - 128) = n := by omega
    rw [e]

theorem utf8DecodeAux_encode {s : List Nat} (h : ValidCodepoints s) :
    ∀ (fuel : Nat) (rest : List Nat), s.length ≤ fuel →
      utf8DecodeAux fuel (utf8Encode s ++ rest) =
        s ++ utf8DecodeAux (fuel - s.length) rest := by
  induction s with
  | nil =>
    intro fuel rest _
    simp [utf8Encode]
  | cons c cs ih =>
    intro fuel rest hf
    have hc : c < 1114112 := h c (List.mem_cons_self c cs)
    have hcs : ValidCodepoints cs := fun x hx => h x (List.mem_cons_of_mem c hx)
    simp only [List.length_cons] at hf
    obtain ⟨fuel', rfl⟩ : ∃ f, fuel = f + 1 := ⟨fuel - 1, by omega⟩
    have henc : utf8Encode (c :: cs) = utf8EncodeChar c ++ utf8Encode cs := by
      simp [utf8Encode]
    rw [henc, List.append_assoc, utf8DecodeAux_encodeChar hc,
      ih hcs fuel' rest (by omega)]
    simp only [List.cons_append, List.length_cons]
    have e : fuel' + 1 - (cs.length + 1) = fuel' - cs.length := by omega
    rw [e]

theorem utf8EncodeChar_length_pos (n : Nat) : 0 < (utf8EncodeChar n).length := by
  unfold utf8EncodeChar
  split_ifs <;> simp

theorem length_le_utf8Encode (s : List Nat) : s.length ≤ (utf8Encode s).length := by
  induction s with
  | nil => simp [utf8Encode]
  | cons c cs ih =>
    have hpos := utf8EncodeChar_length_pos c
    simp only [utf8Encode, List.flatMap_cons, List.length_append, List.length_cons] at ih ⊢
    omega

/-- UTF-8 round trip on valid code-point strings. -/
theorem utf8Decode_encode {s : List Nat} (h : ValidCodepoints s) :
    utf8Decode (utf8Encode s) = s := by
  unfold utf8Decode
  have hlen := length_le_utf8Encode s
  have hmain := utf8DecodeAux_encode h (utf8Encode s).length [] hlen
  rw [List.append_nil] at hmain
  rw [hmain, utf8DecodeAux_nil, List.append_nil]

theorem hexDigitVal_toHexDigit {n : Nat} (h : n < 16) :
    hexDigitVal (toHexDigit n) = some n := by
  unfold hexDigitVal toHexDigit
  split_ifs <;> first | (exfalso; omega) | (congr 1; omega)

theorem hexPairsToBytes_flatMap {bs : List Nat} (h : ∀ b ∈ bs, b < 256) :
    hexPairsToBytes (bs.flatMap (fun b => [toHexDigit (b / 16), toHexDigit (b % 16)])) =
      some bs := by
  induction bs with
  | nil => rfl
  | cons b bs ih =>
    have hb : b < 256 := h b (List.mem_cons_self b bs)
    have hbs : ∀ x ∈ bs, x < 256 := fun x hx => h x (List.mem_cons_of_mem b hx)
    simp only [List.flatMap_cons, List.cons_append, List.nil_append]
    rw [hexPairsToBytes]
    rw [hexDigitVal_toHexDigit (by omega), hexDigitVal_toHexDigit (by omega), ih hbs]
    have e : b / 16 * 16 + b % 16 = b := by omega
    simp only [e]

/-- Hex round trip: parsing the hex encoding of a byte string recovers the
bytes. -/
theorem hexToBytes_bytesToHex {bs : List Nat} (h : ∀ b ∈ bs, b < 256) :
    hexToBytes (bytesToHex bs) = some bs := by
  show hexPairsToBytes (bs.flatMap fun b => [toHexDigit (b / 16), toHexDigit (b % 16)]) =
    some bs
  exact hexPairsToBytes_flatMap h

/-- The JSON fragment handled by this application: a string, or an object
whose fields are strings (the task payload `{"image": ..., "theme": ...}`).
`JSON.parse` is modelled on this fragment; JSON values outside it are not
produced by the application and parse to `none` in the model (the source
treats any `JSON.parse` throw identically via its `catch`). -/
inductive Json where
  | str (s : List Nat)
  | obj (fields : List (List Nat × List Nat))
  deriving Repr, DecidableEq

/-- Prepend a code point to the string being accumulated by the JSON
string parser. -/
def consParsed (c : Nat) (p : Option (List Nat × List Nat)) : Option (List Nat × List Nat) :=
  match p with
  | none => none
  | some (v, r) => some (c :: v, r)

/-- Parse the body of a JSON string (after the opening quote), handling the
standard escapes, up to and including the closing quote; returns the
decoded contents and the remaining input.  Raw control characters are
rejected, as in `JSON.parse`. -/
def parseJsonStringAux : List Nat → Option (List Nat × List Nat)
  | [] => none
  | c :: rest =>
    if c = 34 then some ([], rest)
    else if c = 92 then
      match rest with
      | [] => none
      | esc :: rest1 =>
        if esc = 34 ∨ esc = 92 ∨ esc = 47 then consParsed esc (parseJsonStringAux rest1)
        else if esc = 98 then consParsed 8 (parseJsonStringAux rest1)
        else if esc = 102 then consParsed 12 (parseJsonStringAux rest1)
        else if esc = 110 then consParsed 10 (parseJsonStringAux rest1)
        else if esc = 114 then consParsed 13 (parseJsonStringAux rest1)
        else if esc = 116 then consParsed 9 (parseJsonStringAux rest1)
        else if esc = 117 then
          match rest1 with
          | h1 :: h2 :: h3 :: h4 :: rest5 =>
            match hexDigitVal h1, hexDigitVal h2, hexDigitVal h3, hexDigitVal h4 with
            | some a, some b, some c2, some d =>
              consParsed (((a * 16 + b) * 16 + c2) * 16 + d) (parseJsonStringAux rest5)
            | _, _, _, _ => none
          | _ => none
        else none
    else if c < 32 then none
    else consParsed c (parseJsonStringAux rest)

/-- JSON string escaping of one code point, as `JSON.stringify` performs
it: quote and backslash get a backslash escape, control characters the
`\u00XX` form, everything else is emitted raw. -/
def escapeChar (c : Nat) : List Nat :=
  if c = 34 then [92, 34]
  else if c = 92 then [92, 92]
  else if c < 32 then [92, 117, 48, 48, toHexDigit (c / 16), toHexDigit (c % 16)]
  else [c]

/-- JSON string escaping of a whole string. -/
def escapeString (s : List Nat) : List Nat := s.flatMap escapeChar

/-- Parsing an escaped string followed by a closing quote recovers the
string exactly and leaves the remaining input untouched. -/
theorem parseJsonStringAux_escape (s : List Nat) :
    ∀ rest : List Nat, parseJsonStringAux (escapeString s ++ 34 :: rest) = some (s, rest) := by
  induction s with
  | nil =>
    intro rest
    show parseJsonStringAux (34 :: rest) = some ([], rest)
    rw [parseJsonStringAux.eq_def]
    simp
  | cons c cs ih =>
    intro rest
    have hflat : escapeString (c :: cs) = escapeChar c ++ escapeString cs := by
      simp [escapeString]
    rw [hflat, List.append_assoc]
    unfold escapeChar
    split_ifs with h1 h2 h3
    · subst h1
      rw [parseJsonStringAux.eq_def]
      simp [consParsed, ih rest]
    · subst h2
      rw [parseJsonStringAux.eq_def]
      simp [consParsed, ih rest]
    · rw [parseJsonStringAux.eq_def]
      simp [consParsed, ih rest,
        show hexDigitVal 48 = some 0 from rfl,
        hexDigitVal_toHexDigit (show c / 16 < 16 by omega),
        hexDigitVal_toHexDigit (show c % 16 < 16 by omega)]
      omega
    · rw [parseJsonStringAux.eq_def]
      simp [consParsed, ih rest, h1, h2, h3]

/-- Fuel-driven parser for the members of a JSON object (after the opening
brace): a sequence of `"key":"value"` pairs separated by commas and closed
by a brace.  One unit of fuel per member, so fuel `≥` the member count
always suffices; values are strings, matching the JSON fragment this
application exchanges. -/
def parseMembersAux : Nat → List Nat → Option (List (List Nat × List Nat) × List Nat)
  | 0, _ => none
  | fuel + 1, s =>
    if byteAt s 0 = 34 then
      (parseJsonStringAux s.tail).bind (fun p1 =>
        if byteAt p1.2 0 = 58 ∧ byteAt p1.2 1 = 34 then
          (parseJsonStringAux p1.2.tail.tail).bind (fun p2 =>
            if byteAt p2.2 0 = 44 then
              (parseMembersAux fuel p2.2.tail).map (fun pr => ((p1.1, p2.1) :: pr.1, pr.2))
            else if byteAt p2.2 0 = 125 then some ([(p1.1, p2.1)], p2.2.tail)
            else none)
        else none)
    else none

/-- Model of `JSON.parse` on the fragment this application exchanges: a
top-level object of string fields, or a bare string; anything else (or any
trailing input) fails, which the source's `catch` turns into the sentinel
either way. -/
def jsonParse (s : List Nat) : Option Json :=
  if s = [123, 125] then some (Json.obj [])
  else if byteAt s 0 = 123 then
    (parseMembersAux s.length s.tail).bind
      (fun p => if p.2 = [] then some (Json.obj p.1) else none)
  else if byteAt s 0 = 34 then
    (parseJsonStringAux s.tail).bind
      (fun p => if p.2 = [] then some (Json.str p.1) else none)
  else none

/-- JavaScript property access `jsonData.key` on a parsed JSON value:
`undefined` (here `none`) on non-objects and missing keys; the last
occurrence wins for duplicate keys, as in `JSON.parse`. -/
def jsonGet (j : Json) (key : List Nat) : Option (List Nat) :=
  match j with
  | .str _ => none
  | .obj fields => ((fields.filter (fun p => p.1 == key)).getLast?).map Prod.snd

/-- The code points of the property name `image`. -/
def imageKey : List Nat := [105, 109, 97, 103, 101]

/-- The code points of the property name `theme`. -/
def themeKey : List Nat := [116, 104, 101, 109, 101]

/-- Model of viem's `hexToString`: hex to bytes (throwing on malformed hex,
modelled as `none`), then lenient UTF-8 text decoding. -/
def hexToString (s : List Nat) : Option (List Nat) := (hexToBytes s).map utf8Decode

/-- What `decodeImageFromHex` evaluates to: either a rendering carrying the
`image` and `theme` property values as the source's JSX does (an absent
property is JavaScript `undefined`, modelled as `none`), or the fixed
"Unable to decode image data" sentinel returned by the `catch` branch. -/
inductive ImageDecodeResult where
  | rendered (image : Option (List Nat)) (theme : Option (List Nat))
  | unableToDecode
  deriving Repr, DecidableEq

/-- `decodeImageFromHex` from `TasksList.tsx`: `hexToString`, then
`JSON.parse`, then render `jsonData.image` and `jsonData.theme`; any throw
in the `try` block yields the sentinel. -/
def decodeImageFromHex (inputHex : List Nat) : ImageDecodeResult :=
  (((hexToString inputHex).bind jsonParse).map
    (fun jsonData =>
      ImageDecodeResult.rendered (jsonGet jsonData imageKey) (jsonGet jsonData themeKey))).getD
    ImageDecodeResult.unableToDecode

/-- One JSON object member `"key":"value"` followed by `tail` (spec-side
encoder for C7's round trip). -/
def encodeMember (k v tail : List Nat) : List Nat :=
  34 :: (escapeString k ++ 34 :: 58 :: 34 :: (escapeString v ++ 34 :: tail))

/-- The members of a JSON object, comma-separated and closed by a brace
(spec-side encoder for C7's round trip). -/
def encodeMembers : List (List Nat × List Nat) → List Nat
  | [] => []
  | [(k, v)] => encodeMember k v [125]
  | (k, v) :: rest => encodeMember k v (44 :: encodeMembers rest)

/-- The spec's "UTF-8 hex of the JSON object with fields `image` and
`theme`": the serialized JSON object. -/
def jsonEncodeRecord (image theme : List Nat) : List Nat :=
  123 :: encodeMembers [(imageKey, image), (themeKey, theme)]

/-- The spec's described encoding of an `{image, theme}` record: the hex of
the UTF-8 bytes of the JSON object. -/
def encodeTaskInput (image theme : List Nat) : List Nat :=
  bytesToHex (utf8Encode (jsonEncodeRecord image theme))

theorem byteAt_cons_zero (x : Nat) (l : List Nat) : byteAt (x :: l) 0 = x := rfl

theorem byteAt_cons_succ (x : Nat) (l : List Nat) (i : Nat) :
    byteAt (x :: l) (i + 1) = byteAt l i := rfl

/-- Parsing one encoded member behaves like the parser's comma/brace step
on the trailing input. -/
theorem parseMembersAux_encodeMember (f : Nat) (k v tail : List Nat) :
    parseMembersAux (f + 1) (encodeMember k v tail) =
      (if byteAt tail 0 = 44 then
        (parseMembersAux f tail.tail).map (fun pr => ((k, v) :: pr.1, pr.2))
      else if byteAt tail 0 = 125 then some ([(k, v)], tail.tail)
      else none) := by
  unfold encodeMember
  rw [parseMembersAux.eq_def]
  simp [byteAt_cons_zero, byteAt_cons_succ, parseJsonStringAux_escape k,
    parseJsonStringAux_escape v]

theorem encodeMembers_length_ge :
    ∀ ms : List (List Nat × List Nat), ms.length ≤ (encodeMembers ms).length := by
  intro ms
  induction ms with
  | nil => simp [encodeMembers]
  | cons m ms' ih =>
    obtain ⟨k, v⟩ := m
    cases ms' with
    | nil =>
      show 1 ≤ (encodeMembers [(k, v)]).length
      simp [encodeMembers, encodeMember]
    | cons m2 ms'' =>
      show (m2 :: ms'').length + 1 ≤ (encodeMembers ((k, v) :: m2 :: ms'')).length
      have he : encodeMembers ((k, v) :: m2 :: ms'') =
          encodeMember k v (44 :: encodeMembers (m2 :: ms'')) := rfl
      rw [he]
      simp only [encodeMember, List.length_cons, List.length_append] at ih ⊢
      omega

theorem parseMembersAux_encodeMembers :
    ∀ (ms : List (List Nat × List Nat)) (f : Nat), ms ≠ [] → ms.length ≤ f →
      parseMembersAux f (encodeMembers ms) = some (ms, []) := by
  intro ms
  induction ms with
  | nil => intro f h _; exact absurd rfl h
  | cons m ms' ih =>
    intro f _ hlen
    obtain ⟨k, v⟩ := m
    simp only [List.length_cons] at hlen
    obtain ⟨f', rfl⟩ : ∃ g, f = g + 1 := ⟨f - 1, by omega⟩
    cases ms' with
    | nil =>
      show parseMembersAux (f' + 1) (encodeMembers [(k, v)]) = some ([(k, v)], [])
      rw [show encodeMembers [(k, v)] = encodeMember k v [125] from rfl,
        parseMembersAux_encodeMember]
      simp [byteAt_cons_zero]
    | cons m2 ms'' =>
      rw [show encodeMembers ((k, v) :: m2 :: ms'') =
          encodeMember k v (44 :: encodeMembers (m2 :: ms'')) from rfl,
        parseMembersAux_encodeMember]
      simp only [byteAt_cons_zero, List.tail_cons, if_pos]
      rw [ih f' (by simp) (by simp only [List.length_cons] at hlen ⊢; omega)]
      rfl

/-- Parsing the encoded `{image, theme}` record recovers exactly the
two-field object. -/
theorem jsonParse_encodeRecord (image theme : List Nat) :
    jsonParse (jsonEncodeRecord image theme) =
      some (Json.obj [(imageKey, image), (themeKey, theme)]) := by
  unfold jsonParse jsonEncodeRecord
  have hexp : encodeMembers [(imageKey, image), (themeKey, theme)] =
      34 :: (escapeString imageKey ++ 34 :: 58 :: 34 ::
        (escapeString image ++ 34 :: (44 :: encodeMembers [(themeKey, theme)]))) := rfl
  have hne : (123 :: encodeMembers [(imageKey, image), (themeKey, theme)]) ≠ [123, 125] := by
    rw [hexp]
    simp
  rw [if_neg hne, if_pos (byteAt_cons_zero 123 _), List.length_cons, List.tail_cons,
    parseMembersAux_encodeMembers [(imageKey, image), (themeKey, theme)] _ (by simp)
      (by have := encodeMembers_length_ge [(imageKey, image), (themeKey, theme)]
          simp only [List.length_cons, List.length_nil] at this ⊢
          omega)]
  rfl

theorem jsonGet_record_image (image theme : List Nat) :
    jsonGet (Json.obj [(imageKey, image), (themeKey, theme)]) imageKey = some image := rfl

theorem jsonGet_record_theme (image theme : List Nat) :
    jsonGet (Json.obj [(imageKey, image), (themeKey, theme)]) themeKey = some theme := rfl

theorem validCodepoints_append {a b : List Nat} (ha : ValidCodepoints a)
    (hb : ValidCodepoints b) : ValidCodepoints (a ++ b) := by
  intro c hc
  rcases List.mem_append.mp hc with h | h
  · exact ha c h
  · exact hb c h

theorem validCodepoints_cons {c : Nat} {s : List Nat} (hc : c < 1114112)
    (hs : ValidCodepoints s) : ValidCodepoints (c :: s) := by
  intro x hx
  rcases List.mem_cons.mp hx with h | h
  · omega
  · exact hs x h

theorem toHexDigit_lt_128 (m : Nat) (h : m < 16) : toHexDigit m < 128 := by
  unfold toHexDigit
  split_ifs <;> omega

theorem validCodepoints_escapeString {s : List Nat} (h : ValidCodepoints s) :
    ValidCodepoints (escapeString s) := by
  intro c hc
  unfold escapeString at hc
  rcases List.mem_flatMap.mp hc with ⟨x, hx, hcx⟩
  have hxv := h x hx
  unfold escapeChar at hcx
  split_ifs at hcx with e1 e2 e3
  · simp at hcx; omega
  · simp at hcx; omega
  · have h1 := toHexDigit_lt_128 (x / 16) (by omega)
    have h2 := toHexDigit_lt_128 (x % 16) (by omega)
    simp at hcx
    omega
  · simp at hcx; omega

theorem validCodepoints_jsonEncodeRecord {image theme : List Nat}
    (hi : ValidCodepoints image) (ht : ValidCodepoints theme) :
    ValidCodepoints (jsonEncodeRecord image theme) := by
  have hrec : jsonEncodeRecord image theme =
      123 :: (34 :: (escapeString imageKey ++ 34 :: 58 :: 34 ::
        (escapeString image ++ 34 :: (44 :: (34 :: (escapeString themeKey ++
          34 :: 58 :: 34 :: (escapeString theme ++ 34 :: [125]))))))) := rfl
  rw [hrec]
  refine validCodepoints_cons (by omega) (validCodepoints_cons (by omega) ?_)
  refine validCodepoints_append (validCodepoints_escapeString (by decide)) ?_
  refine validCodepoints_cons (by omega) (validCodepoints_cons (by omega)
    (validCodepoints_cons (by omega) ?_))
  refine validCodepoints_append (validCodepoints_escapeString hi) ?_
  refine validCodepoints_cons (by omega) (validCodepoints_cons (by omega)
    (validCodepoints_cons (by omega) ?_))
  refine validCodepoints_append (validCodepoints_escapeString (by decide)) ?_
  refine validCodepoints_cons (by omega) (validCodepoints_cons (by omega)
    (validCodepoints_cons (by omega) ?_))
  refine validCodepoints_append (validCodepoints_escapeString ht) ?_
  intro x hx
  simp at hx
  omega

theorem utf8Encode_lt_256 {s : List Nat} (h : ValidCodepoints s) :
    ∀ b ∈ utf8Encode s, b < 256 := by
  intro b hb
  rcases List.mem_flatMap.mp hb with ⟨x, hx, hbx⟩
  exact utf8EncodeChar_lt_256 (h x hx) b hbx

/-- C7.  Task-input decoder round-trip: encoding any `{image, theme}`
record (strings of Unicode code points) as the UTF-8 hex of the JSON object
with fields `image` and `theme`, and decoding with `decodeImageFromHex`,
recovers exactly the original image and theme values. -/
theorem decoder_roundtrip (image theme : List Nat)
    (himage : ValidCodepoints image) (htheme : ValidCodepoints theme) :
    decodeImageFromHex (encodeTaskInput image theme) =
      ImageDecodeResult.rendered (some image) (some theme) := by
  have hvalid : ValidCodepoints (jsonEncodeRecord image theme) :=
    validCodepoints_jsonEncodeRecord himage htheme
  unfold decodeImageFromHex encodeTaskInput hexToString
  rw [hexToBytes_bytesToHex (utf8Encode_lt_256 hvalid)]
  simp [utf8Decode_encode hvalid, jsonParse_encodeRecord, jsonGet_record_image,
    jsonGet_record_theme]

/-- Witness for C7 at a concrete record (`image` a base64 string,
`theme` a word). -/
theorem decoder_roundtrip_witness :
    ValidCodepoints [97, 71, 86, 115, 98, 71, 56, 61] ∧
    ValidCodepoints [99, 97, 116] ∧
    decodeImageFromHex (encodeTaskInput [97, 71, 86, 115, 98, 71, 56, 61] [99, 97, 116]) =
      ImageDecodeResult.rendered (some [97, 71, 86, 115, 98, 71, 56, 61])
        (some [99, 97, 116]) :=
  ⟨by decide, by decide,
    decoder_roundtrip [97, 71, 86, 115, 98, 71, 56, 61] [99, 97, 116]
      (by decide) (by decide)⟩

/-- Read one big-endian 32-byte word of the ABI encoding as a `Nat`
(`uint256`); fails (throws, in viem) when it runs past the data. -/
def readWord (bs : List Nat) (off : Nat) : Option Nat :=
  if off + 32 ≤ bs.length then
    some (((bs.drop off).take 32).foldl (fun acc b => acc * 256 + b) 0)
  else none

/-- Read a dynamic `bytes`/`string` payload at `off`: a length word
followed by that many bytes. -/
def abiBytes (bs : List Nat) (off : Nat) : Option (List Nat) :=
  (readWord bs off).bind (fun len =>
    if off + 32 + len ≤ bs.length then some ((bs.drop (off + 32)).take len) else none)

/-- Read an ABI `string` at `off`: its bytes, UTF-8 decoded (viem returns a
JavaScript string). -/
def abiString (bs : List Nat) (off : Nat) : Option (List Nat) :=
  (abiBytes bs off).map utf8Decode

/-- Read `n` consecutive words starting at `base`. -/
def readWords (bs : List Nat) : Nat → Nat → Option (List Nat)
  | _, 0 => some []
  | base, n + 1 =>
    (readWord bs base).bind (fun w =>
      (readWords bs (base + 32) n).map (fun ws => w :: ws))

/-- Read `n` strings of a dynamic `string[]`: element `i`'s offset word
sits at `base + 32 * i` and is relative to `base` (the start of the
array's element area). -/
def readStrings (bs : List Nat) : Nat → Nat → Nat → Option (List (List Nat))
  | _, _, 0 => some []
  | base, i, n + 1 =>
    (readWord bs (base + 32 * i)).bind (fun ptr =>
      (abiString bs (base + ptr)).bind (fun s =>
        (readStrings bs base (i + 1) n).map (fun ss => s :: ss)))

/-- Read a dynamic `uint256[]` at `off`: length word, then that many words. -/
def abiUintArray (bs : List Nat) (off : Nat) : Option (List Nat) :=
  (readWord bs off).bind (fun n => readWords bs (off + 32) n)

/-- Read a dynamic `string[]` at `off`: length word, then the element
area. -/
def abiStringArray (bs : List Nat) (off : Nat) : Option (List (List Nat)) :=
  (readWord bs off).bind (fun n => readStrings bs (off + 32) 0 n)

/-- Model of viem's `decodeAbiParameters` for the fixed parameter list
`(uint256 result, string theme, string[] classes, uint256[] probabilities)`:
the four head words are the `result` value and the offsets of the three
dynamic tails (offsets relative to the start of the data); any out-of-range
access throws, modelled as `none`. -/
def decodeNoticeTuple (bs : List Nat) :
    Option (Nat × List Nat × List (List Nat) × List Nat) :=
  (readWord bs 0).bind (fun result =>
  (readWord bs 32).bind (fun themeOff =>
  (abiString bs themeOff).bind (fun theme =>
  (readWord bs 64).bind (fun classesOff =>
  (abiStringArray bs classesOff).bind (fun classes =>
  (readWord bs 96).bind (fun probsOff =>
  (abiUintArray bs probsOff).map (fun probs =>
  (result, theme, classes, probs))))))))

/-- What `decodeNotice` evaluates to: either a rendering of the decoded
tuple — the result percentage, the theme, and one display entry per class
pairing `classes[i]` with `probabilities[i]` (`none` models JavaScript
`undefined`, displayed as `NaN` by `Number(...).toFixed(1)`) — or the fixed
"Unable to decode notice" sentinel from the `catch` branch. -/
inductive NoticeDecodeResult where
  | rendered (result : Nat) (theme : List Nat) (entries : List (List Nat × Option Nat))
  | unableToDecode
  deriving Repr, DecidableEq

/-- `decodeNotice` from `EventsList`: ABI-decode the notice hex and render
`classes.map((className, index) => ... probabilities[index] ...)`; any
throw in the `try` block yields the sentinel. -/
def decodeNotice (noticeHex : List Nat) : NoticeDecodeResult :=
  (((hexToBytes noticeHex).bind decodeNoticeTuple).map (fun t =>
    NoticeDecodeResult.rendered t.1 t.2.1
      (t.2.2.1.enum.map (fun p => (p.2, t.2.2.2.get? p.1))))).getD
    NoticeDecodeResult.unableToDecode

/-- C5.  Decoder totality: on every hex input, `decodeImageFromHex` and
`decodeNotice` return either a decoded rendering or their fixed
"unable to decode" sentinel — the models are total functions, so no failure
reaches the caller — and on malformed hex, on JSON that fails to parse, and
on a malformed ABI encoding, the sentinel is returned. -/
theorem decoder_totality (input : List Nat) :
    ((∃ i t, decodeImageFromHex input = ImageDecodeResult.rendered i t) ∨
      decodeImageFromHex input = ImageDecodeResult.unableToDecode) ∧
    ((∃ r th es, decodeNotice input = NoticeDecodeResult.rendered r th es) ∨
      decodeNotice input = NoticeDecodeResult.unableToDecode) ∧
    (hexToBytes input = none →
      decodeImageFromHex input = ImageDecodeResult.unableToDecode ∧
      decodeNotice input = NoticeDecodeResult.unableToDecode) ∧
    (∀ bs, hexToBytes input = some bs → jsonParse (utf8Decode bs) = none →
      decodeImageFromHex input = ImageDecodeResult.unableToDecode) ∧
    (∀ bs, hexToBytes input = some bs → decodeNoticeTuple bs = none →
      decodeNotice input = NoticeDecodeResult.unableToDecode) := by
  refine ⟨?_, ?_, ?_, ?_, ?_⟩
  · cases h : (hexToString input).bind jsonParse with
    | none => exact Or.inr (by simp [decodeImageFromHex, h])
    | some j =>
      exact Or.inl ⟨jsonGet j imageKey, jsonGet j themeKey, by simp [decodeImageFromHex, h]⟩
  · cases h : (hexToBytes input).bind decodeNoticeTuple with
    | none => exact Or.inr (by simp [decodeNotice, h])
    | some t =>
      exact Or.inl ⟨t.1, t.2.1, t.2.2.1.enum.map (fun p => (p.2, t.2.2.2.get? p.1)),
        by simp [decodeNotice, h]⟩
  · intro h
    constructor
    · simp [decodeImageFromHex, hexToString, h]
    · simp [decodeNotice, h]
  · intro bs hbs hjson
    simp [decodeImageFromHex, hexToString, hbs, hjson]
  · intro bs hbs htuple
    simp [decodeNotice, hbs, htuple]

/-- Witness for C5: a non-hex input (`0xz`) and a valid-hex input whose
bytes are neither JSON nor a long-enough ABI payload (`0x61`). -/
theorem decoder_totality_witness :
    (hexToBytes [48, 120, 122] = none ∧
      decodeImageFromHex [48, 120, 122] = ImageDecodeResult.unableToDecode ∧
      decodeNotice [48, 120, 122] = NoticeDecodeResult.unableToDecode) ∧
    (hexToBytes [48, 120, 54, 49] = some [97] ∧
      jsonParse (utf8Decode [97]) = none ∧
      decodeImageFromHex [48, 120, 54, 49] = ImageDecodeResult.unableToDecode ∧
      decodeNoticeTuple [97] = none ∧
      decodeNotice [48, 120, 54, 49] = NoticeDecodeResult.unableToDecode) := by
  refine ⟨⟨by decide, ?_, ?_⟩, by decide, by decide, ?_, by decide, ?_⟩
  · exact ((decoder_totality [48, 120, 122]).2.2.1 (by decide)).1
  · exact ((decoder_totality [48, 120, 122]).2.2.1 (by decide)).2
  · exact (decoder_totality [48, 120, 54, 49]).2.2.2.1 [97] (by decide) (by decide)
  · exact (decoder_totality [48, 120, 54, 49]).2.2.2.2 [97] (by decide) (by decide)

/-- A 32-byte big-endian ABI word for a small value. -/
def abiWord (n : Nat) : List Nat := (List.range 32).map (fun i => n / 256 ^ (31 - i) % 256)

/-- A concrete ABI encoding of the tuple
`(result = 42, theme = "t", classes = ["a"], probabilities = [])` — the
`classes` and `probabilities` arrays have different lengths (1 ≠ 0), yet it
is a perfectly well-formed encoding of the parameter list. -/
def c6NoticeBytes : List Nat :=
  abiWord 42 ++ abiWord 128 ++ abiWord 192 ++ abiWord 320 ++
  abiWord 1 ++ (116 :: List.replicate 31 0) ++
  abiWord 1 ++ abiWord 32 ++
  abiWord 1 ++ (97 :: List.replicate 31 0) ++ abiWord 0

/-- The hex string carrying `c6NoticeBytes`. -/
def c6NoticeHex : List Nat := bytesToHex c6NoticeBytes

set_option maxRecDepth 100000 in
/-- Counterexample to C6 as stated: this input's ABI tuple decodes with
`classes = ["a"]` and `probabilities = []` of different lengths, yet
`decodeNotice` does not return the "unable to decode" indicator — it
returns the positionally zipped display, with the missing probability as
`none` (JavaScript `undefined`, displayed `NaN`). -/
theorem notice_length_mismatch_counterexample :
    hexToBytes c6NoticeHex = some c6NoticeBytes ∧
    decodeNoticeTuple c6NoticeBytes = some (42, [116], [[97]], []) ∧
    decodeNotice c6NoticeHex = NoticeDecodeResult.rendered 42 [116] [([97], none)] ∧
    decodeNotice c6NoticeHex ≠ NoticeDecodeResult.unableToDecode := by
  refine ⟨by decide, by decide, by decide, ?_⟩
  intro hcontra
  have h : decodeNotice c6NoticeHex = NoticeDecodeResult.rendered 42 [116] [([97], none)] :=
    by decide
  rw [h] at hcontra
  exact absurd hcontra (by decide)

/-- C6 amended.  Whenever the ABI tuple decodes — lengths matching or not —
`decodeNotice` returns the rendering that zips `classes` positionally with
`probabilities` (a missing probability shows as `none`/`NaN`, excess
probabilities are ignored); the "unable to decode" indicator is returned
only when the ABI decoding itself fails. -/
theorem notice_decoder_positional_zip (noticeHex bs : List Nat) (r : Nat)
    (th : List Nat) (cs : List (List Nat)) (ps : List Nat)
    (hbs : hexToBytes noticeHex = some bs)
    (htuple : decodeNoticeTuple bs = some (r, th, cs, ps)) :
    decodeNotice noticeHex =
      NoticeDecodeResult.rendered r th (cs.enum.map (fun p => (p.2, ps.get? p.1))) := by
  unfold decodeNotice
  rw [hbs]
  simp [htuple]

set_option maxRecDepth 100000 in
/-- Witness for the amended C6 at the concrete mismatched-length input. -/
theorem notice_decoder_positional_zip_witness :
    hexToBytes c6NoticeHex = some c6NoticeBytes ∧
    decodeNoticeTuple c6NoticeBytes = some (42, [116], [[97]], []) ∧
    decodeNotice c6NoticeHex = NoticeDecodeResult.rendered 42 [116] [([97], none)] :=
  ⟨by decide, by decide,
    (notice_decoder_positional_zip c6NoticeHex c6NoticeBytes 42 [116] [[97]] []
      (by decide) (by decide)).trans (by decide)⟩

end ScribblScan
